import Mathlib

/-!
Shallow embedding of `src/calculation.py`: a price-processing pipeline that
parses CSV rows, applies a per-instrument multiplier from a reference store,
filters records to parseable business-day dates, groups observations by
instrument, and computes one statistic per instrument.  Float values are
idealised as rationals.
-/

namespace Calc

/-- A calendar date, as produced by `datetime.datetime.strptime`. -/
structure Date where
  year : Nat
  month : Nat
  day : Nat
deriving DecidableEq, Repr

/-- Gregorian leap-year test, as in Python's `datetime` module. -/
def isLeap (y : Nat) : Bool := y % 4 == 0 && (y % 100 != 0 || y % 400 == 0)

/-- Number of days in month `m` of year `y` (months are 1-based). -/
def daysInMonth (y m : Nat) : Nat :=
  if m = 2 then (if isLeap y then 29 else 28)
  else if m = 4 ∨ m = 6 ∨ m = 9 ∨ m = 11 then 30
  else 31

/-- Days in year `y` strictly before month `m`. -/
def daysBeforeMonth (y m : Nat) : Nat :=
  (List.range (m - 1)).foldl (fun a i => a + daysInMonth y (i + 1)) 0

/-- Proleptic-Gregorian ordinal of a date, with 0001-01-01 ↦ 1
(Python's `date.toordinal`). -/
def toOrdinal (d : Date) : Nat :=
  365 * (d.year - 1) + (d.year - 1) / 4 - (d.year - 1) / 100 + (d.year - 1) / 400
    + daysBeforeMonth d.year d.month + d.day

/-- Python's `date.weekday()`: Monday = 0, …, Sunday = 6. -/
def weekday (d : Date) : Nat := (toOrdinal d - 1) % 7

/-- Chronological comparison of dates (Python compares `datetime` objects
lexicographically on year, month, day). -/
def dateLe (a b : Date) : Bool :=
  a.year < b.year ||
    (a.year == b.year &&
      (a.month < b.month || (a.month == b.month && a.day ≤ b.day)))

/-- Numeric value of a list of decimal digit characters. -/
def digitsToNat (cs : List Char) : Nat :=
  cs.foldl (fun a c => a * 10 + (c.toNat - 48)) 0

/-- Split a character list at every occurrence of the separator character
(`"a-b".splitOn "-"` restricted to a one-character separator, which is all the
pipeline uses). -/
def splitOnChar (sep : Char) : List Char → List (List Char)
  | [] => [[]]
  | c :: rest =>
      if c == sep then [] :: splitOnChar sep rest
      else
        match splitOnChar sep rest with
        | [] => [[c]]
        | t :: ts => (c :: t) :: ts

/-- Lower-case month abbreviations of the C locale, in month order. -/
def monthAbbrevs : List (List Char) :=
  ["jan".toList, "feb".toList, "mar".toList, "apr".toList, "may".toList,
   "jun".toList, "jul".toList, "aug".toList, "sep".toList, "oct".toList,
   "nov".toList, "dec".toList]

/-- Month number (1–12) from an abbreviation token.  Python's `_strptime`
compiles its format regex with `IGNORECASE`, so the token is matched
case-insensitively against the locale's abbreviations. -/
def monthFromAbbrev (cs : List Char) : Option Nat :=
  (monthAbbrevs.findIdx? (· == cs.map Char.toLower)).map (· + 1)

/-- Day-of-month token of `%d`: the regex `3[01]|[12]\d|0[1-9]|[1-9]`, i.e.
one or two digits denoting a value between 1 and 31. -/
def parseDayToken (cs : List Char) : Option Nat :=
  if cs.all Char.isDigit && (cs.length == 1 || cs.length == 2) then
    if 1 ≤ digitsToNat cs ∧ digitsToNat cs ≤ 31 then some (digitsToNat cs)
    else none
  else none

/-- Year token of `%Y`: exactly four digits; `datetime` additionally requires
`year ≥ MINYEAR = 1`. -/
def parseYearToken (cs : List Char) : Option Nat :=
  if cs.all Char.isDigit && cs.length == 4 then
    if 1 ≤ digitsToNat cs then some (digitsToNat cs) else none
  else none

/-- Model of `datetime.datetime.strptime(date_str, '%d-%b-%Y')`: the format regex must
match the whole string, and constructing the `datetime` checks the day against
the month's length. -/
def strptimeDMbY (s : String) : Option Date :=
  match splitOnChar '-' s.toList with
  | [ds, ms, ys] =>
    match parseDayToken ds, monthFromAbbrev ms, parseYearToken ys with
    | some d, some m, some y =>
        if d ≤ daysInMonth y m then some ⟨y, m, d⟩ else none
    | _, _, _ => none
  | _ => none

/-- The date format asserted by the specification sentence (stated from the
spec's words, for comparison with the parser embedded from the source): a
two-digit day, a three-letter month abbreviation matched case-sensitively
against the C locale's standard abbreviations, and a four-digit year,
separated by hyphens. -/
def claimed_format (s : String) : Bool :=
  match splitOnChar '-' s.toList with
  | [ds, ms, ys] =>
      ds.all Char.isDigit && ds.length == 2 &&
      ([ "Jan".toList, "Feb".toList, "Mar".toList, "Apr".toList, "May".toList,
         "Jun".toList, "Jul".toList, "Aug".toList, "Sep".toList, "Oct".toList,
         "Nov".toList, "Dec".toList].contains ms) &&
      ys.all Char.isDigit && ys.length == 4
  | _ => false

/-- Errors a run can raise: `ValueError` from parsing,
`StatisticsError` from `statistics.mean` on an empty sequence. -/
inductive PyError where
  | valueError
  | statisticsError
deriving DecidableEq, Repr

/-- Model of Python's `float()` builtin on a string, idealised over ℚ:
strips surrounding whitespace, then an optional sign, a digit string with an
optional decimal point, and an optional exponent part.  (Digit-group
underscores and the non-finite literals inf/infinity/nan are not modelled.) -/
def parseSign : List Char → Bool × List Char
  | '+' :: cs => (false, cs)
  | '-' :: cs => (true, cs)
  | cs => (false, cs)

/-- Mantissa of a float literal: digits with at most one decimal point and at
least one digit overall. -/
def parseMantissa (cs : List Char) : Option ℚ :=
  match splitOnChar '.' cs with
  | [ip] =>
      if ip.all Char.isDigit && !ip.isEmpty then some (digitsToNat ip) else none
  | [ip, fp] =>
      if ip.all Char.isDigit && fp.all Char.isDigit && !(ip.isEmpty && fp.isEmpty) then
        some ((digitsToNat ip : ℚ) + (digitsToNat fp : ℚ) / ((10 ^ fp.length : ℕ) : ℚ))
      else none
  | _ => none

/-- Surrounding-whitespace strip performed by `float()` before parsing. -/
def trimChars (cs : List Char) : List Char :=
  ((cs.dropWhile Char.isWhitespace).reverse.dropWhile Char.isWhitespace).reverse

/-- Model of Python's `float()` on a finite decimal literal. -/
def pyFloat (s : String) : Option ℚ :=
  let cs := trimChars s.toList
  let (neg, cs) := parseSign cs
  let signed : ℚ → ℚ := fun q => if neg then -q else q
  match splitOnChar 'e' (cs.map (fun c => if c == 'E' then 'e' else c)) with
  | [m] => (parseMantissa m).map signed
  | [m, ex] =>
      match parseMantissa m with
      | none => none
      | some q =>
          let (eneg, ed) := parseSign ex
          if ed.all Char.isDigit && !ed.isEmpty then
            let p : ℚ := ((10 ^ digitsToNat ed : ℕ) : ℚ)
            some (signed (if eneg then q / p else q * p))
          else none
  | _ => none

/-- One observation stored in a series: the parsed date and adjusted value. -/
abbrev Obs := Date × ℚ

/-- The per-instrument series map built by ingestion: an association list in
key-insertion order, mirroring `defaultdict(deque)` (Python dicts preserve
insertion order). -/
abbrev SeriesMap := List (String × List Obs)

/-- The reference store's `INSTRUMENT_PRICE_MODIFIER` table: rows of
(NAME, MULTIPLIER) in insertion order. -/
abbrev RefStore := List (String × ℚ)

/-- Model of `instrument_prices[instrument_name].append(obs)` on a `defaultdict`:
appends to the existing series, or creates a new singleton series at the end
of the key order on first encounter. -/
def append_obs (m : SeriesMap) (name : String) (obs : Obs) : SeriesMap :=
  match m with
  | [] => [(name, [obs])]
  | (n, ps) :: rest =>
      if n = name then (n, ps ++ [obs]) :: rest
      else (n, ps) :: append_obs rest name obs

/-- Function `is_business_day`: Monday–Friday, i.e. `date.weekday() < 5`. -/
def is_business_day (d : Date) : Bool := weekday d < 5

/-- Function `process_date`: parse the date string; on `ValueError` return leaving the
map unchanged; otherwise append the observation when the date is a business
day. -/
def process_date (instrument_prices : SeriesMap) (instrument_name : String)
    (date_str : String) (value : ℚ) : SeriesMap :=
  match strptimeDMbY date_str with
  | none => instrument_prices
  | some date =>
      if is_business_day date then
        append_obs instrument_prices instrument_name (date, value)
      else instrument_prices

/-- Function `get_multiplier`: `SELECT MULTIPLIER … WHERE NAME=?` and `fetchone`,
returning the first matching row's multiplier, else the default 1.0. -/
def get_multiplier (conn : RefStore) (instrument_name : String) : ℚ :=
  match conn.find? (fun e => e.1 == instrument_name) with
  | some e => e.2
  | none => 1

/-- Function `read_instrument_prices_line` applied to one CSV row: tuple unpacking
raises `ValueError` unless the row has exactly three fields, and `float(value)`
raises `ValueError` on a non-numeric value field. -/
def parse_line (row : List String) : Except PyError (String × String × ℚ) :=
  match row with
  | [instrument_name, date_str, value] =>
      match pyFloat value with
      | some v => .ok (instrument_name, date_str, v)
      | none => .error .valueError
  | _ => .error .valueError

/-- The loop body of `read_instrument_prices`, consuming the lazily-parsed
rows one at a time: each row is parsed, its value multiplied by the
instrument's multiplier, and handed to `process_date`; a parse error
propagates, discarding the partially built map. -/
def ingest_rows (rows : List (List String)) (conn : RefStore)
    (acc : SeriesMap) : Except PyError SeriesMap :=
  match rows with
  | [] => .ok acc
  | row :: rest =>
      match parse_line row with
      | .error e => .error e
      | .ok (instrument_name, date_str, value) =>
          ingest_rows rest conn
            (process_date acc instrument_name date_str
              (value * get_multiplier conn instrument_name))

/-- Function `read_instrument_prices`: fold the rows into an initially-empty series
map. -/
def read_instrument_prices (rows : List (List String)) (conn : RefStore) :
    Except PyError SeriesMap :=
  ingest_rows rows conn []

/-- Model of `statistics.mean`: raises `StatisticsError` on an empty sequence, modelled
as `none`. -/
def mean (l : List ℚ) : Option ℚ :=
  if l.isEmpty then none else some (l.sum / (l.length : ℚ))

/-- Model of `statistics.median`: sort ascending; middle element for odd length,
average of the two middle elements for even length.  (Total here; the source
only calls it on series of length > 1.) -/
def median (l : List ℚ) : ℚ :=
  let s := l.mergeSort (fun a b => decide (a ≤ b))
  let n := s.length
  if n % 2 = 1 then s.getD (n / 2) 0
  else (s.getD (n / 2 - 1) 0 + s.getD (n / 2) 0) / 2

/-- The November-2014 filter of the INSTRUMENT2 branch:
`[price for date, price in prices if date.year == 2014 and date.month == 11]`. -/
def nov_2014_prices (prices : List Obs) : List ℚ :=
  (prices.filter (fun p => p.1.year == 2014 && p.1.month == 11)).map Prod.snd

/-- Descending-by-date comparison used by
`sorted(prices, key=lambda x: x[0], reverse=True)`. -/
def newerLe (a b : Obs) : Bool := dateLe b.1 a.1

/-- Model of `sorted(prices, key=lambda x: x[0], reverse=True)[: min(10, len(prices))]`:
Python's sort is stable, and `reverse=True` keeps equal-key elements in their
original relative order, which `mergeSort` with the flipped comparison also
does. -/
def newest_prices (prices : List Obs) : List Obs :=
  (prices.mergeSort newerLe).take (min 10 prices.length)

/-- The body of the `for instrument, prices in …` loop of
`calculate_statistics`: the statistic for one instrument, `none` when the
branch stores no entry, an error when `statistics.mean` raises. -/
def statistic_for (instrument : String) (prices : List Obs) :
    Except PyError (Option ℚ) :=
  if instrument = "INSTRUMENT1" then
    match mean (prices.map Prod.snd) with
    | none => .error .statisticsError
    | some m => .ok (some m)
  else if instrument = "INSTRUMENT2" then
    match mean (nov_2014_prices prices) with
    | none => .error .statisticsError
    | some m => .ok (some m)
  else if instrument = "INSTRUMENT3" then
    if 1 < prices.length then .ok (some (median (prices.map Prod.snd)))
    else .ok none
  else
    .ok (some (((newest_prices prices).map Prod.snd).sum))

/-- Function `calculate_statistics`: visit the instruments in insertion order, storing
each computed statistic; an exception raised for any instrument aborts the
whole computation. -/
def calculate_statistics (instrument_prices : SeriesMap) :
    Except PyError (List (String × ℚ)) :=
  match instrument_prices with
  | [] => .ok []
  | (instrument, prices) :: rest =>
      match statistic_for instrument prices with
      | .error e => .error e
      | .ok none => calculate_statistics rest
      | .ok (some v) =>
          match calculate_statistics rest with
          | .error e => .error e
          | .ok results => .ok ((instrument, v) :: results)

/-! ### Helper lemmas -/

/-- Every series in the map built by `append_obs` is non-empty, provided every
series already present is. -/
theorem append_obs_nonempty {m : SeriesMap} {name : String} {obs : Obs}
    (h : ∀ n ps, (n, ps) ∈ m → ps ≠ []) :
    ∀ n ps, (n, ps) ∈ append_obs m name obs → ps ≠ [] := by
  induction m with
  | nil =>
      intro n ps hmem
      simp only [append_obs, List.mem_singleton, Prod.mk.injEq] at hmem
      rw [hmem.2]
      simp
  | cons hd tl ih =>
      obtain ⟨n0, ps0⟩ := hd
      intro n ps hmem
      simp only [append_obs] at hmem
      split at hmem
      · rcases List.mem_cons.mp hmem with h1 | h1
        · rw [Prod.mk.injEq] at h1
          rw [h1.2]
          simp
        · exact h n ps (List.mem_cons_of_mem _ h1)
      · rcases List.mem_cons.mp hmem with h1 | h1
        · rw [Prod.mk.injEq] at h1
          rw [h1.2]
          exact h n0 ps0 (List.mem_cons_self _ _)
        · exact ih (fun n ps hm => h n ps (List.mem_cons_of_mem _ hm)) n ps h1

/-- Lemma: `process_date` preserves non-emptiness of every series in the map. -/
theorem process_date_nonempty {m : SeriesMap} {name ds : String} {v : ℚ}
    (h : ∀ n ps, (n, ps) ∈ m → ps ≠ []) :
    ∀ n ps, (n, ps) ∈ process_date m name ds v → ps ≠ [] := by
  unfold process_date
  split
  · exact h
  · split
    · exact append_obs_nonempty h
    · exact h

/-- The ingestion loop preserves non-emptiness of every series. -/
theorem ingest_rows_nonempty {rows : List (List String)} {conn : RefStore}
    {acc m : SeriesMap} (hacc : ∀ n ps, (n, ps) ∈ acc → ps ≠ [])
    (h : ingest_rows rows conn acc = .ok m) :
    ∀ n ps, (n, ps) ∈ m → ps ≠ [] := by
  induction rows generalizing acc with
  | nil =>
      simp only [ingest_rows, Except.ok.injEq] at h
      rw [← h]
      exact hacc
  | cons row rest ih =>
      simp only [ingest_rows] at h
      split at h
      · exact absurd h (by simp)
      · exact ih (process_date_nonempty hacc) h

/-- Any error raised by `parse_line` is a `ValueError`. -/
theorem parse_line_error {row : List String} {e : PyError}
    (h : parse_line row = .error e) : e = .valueError := by
  unfold parse_line at h
  split at h
  · split at h
    · exact absurd h (by simp)
    · exact (Except.error.injEq ..).mp h |>.symm
  · exact (Except.error.injEq ..).mp h |>.symm

/-- If some row of the input fails `parse_line`, the whole ingestion loop
raises `ValueError`, whatever else the input holds. -/
theorem ingest_rows_error {rows : List (List String)} {conn : RefStore}
    {acc : SeriesMap} {row : List String} {e : PyError} (hmem : row ∈ rows)
    (hbad : parse_line row = .error e) :
    ingest_rows rows conn acc = .error .valueError := by
  induction rows generalizing acc with
  | nil => exact absurd hmem (List.not_mem_nil _)
  | cons hd rest ih =>
      simp only [ingest_rows]
      rcases List.mem_cons.mp hmem with h1 | h1
      · rw [h1] at hbad
        rw [parse_line_error hbad] at hbad
        simp [hbad]
      · cases h' : parse_line hd with
        | error e' => simp [h', parse_line_error h']
        | ok t =>
            obtain ⟨a, b, c⟩ := t
            simp only [h']
            exact ih h1

/-- Any error raised by `statistic_for` is a `StatisticsError`. -/
theorem statistic_for_error {instrument : String} {prices : List Obs}
    {e : PyError} (h : statistic_for instrument prices = .error e) :
    e = .statisticsError := by
  unfold statistic_for at h
  repeat' split at h
  all_goals simp_all

/-- If an instrument present in the series map makes its statistic raise, the
whole statistics pass raises `StatisticsError`. -/
theorem calculate_statistics_error {ip : SeriesMap} {n : String}
    {ps : List Obs} {e : PyError} (hmem : (n, ps) ∈ ip)
    (herr : statistic_for n ps = .error e) :
    calculate_statistics ip = .error .statisticsError := by
  induction ip with
  | nil => exact absurd hmem (List.not_mem_nil _)
  | cons hd rest ih =>
      obtain ⟨n0, ps0⟩ := hd
      simp only [calculate_statistics]
      rcases List.mem_cons.mp hmem with h1 | h1
      · rw [Prod.mk.injEq] at h1
        obtain ⟨he1, he2⟩ := h1
        subst he1; subst he2
        simp [herr, statistic_for_error herr]
      · cases h' : statistic_for n0 ps0 with
        | error e' => simp [h', statistic_for_error h']
        | ok o =>
            cases o with
            | none => simp only [h']; exact ih h1
            | some v => simp [h', ih h1]

/-- If the statistics pass succeeds, each instrument whose statistic is
computed as `some v` contributes the entry `(instrument, v)` to the result
mapping. -/
theorem calculate_statistics_mem {ip : SeriesMap} {res : List (String × ℚ)}
    {n : String} {ps : List Obs} {v : ℚ}
    (hok : calculate_statistics ip = .ok res) (hmem : (n, ps) ∈ ip)
    (hstat : statistic_for n ps = .ok (some v)) : (n, v) ∈ res := by
  induction ip generalizing res with
  | nil => exact absurd hmem (List.not_mem_nil _)
  | cons hd rest ih =>
      obtain ⟨n0, ps0⟩ := hd
      simp only [calculate_statistics] at hok
      rcases List.mem_cons.mp hmem with h1 | h1
      · rw [Prod.mk.injEq] at h1
        obtain ⟨he1, he2⟩ := h1
        subst he1; subst he2
        rw [hstat] at hok
        cases h' : calculate_statistics rest with
        | error e =>
            rw [h'] at hok
            exact absurd hok (by simp)
        | ok results =>
            rw [h'] at hok
            simp only [Except.ok.injEq] at hok
            rw [← hok]
            exact List.mem_cons_self _ _
      · cases h' : statistic_for n0 ps0 with
        | error e =>
            rw [h'] at hok
            exact absurd hok (by simp)
        | ok o =>
            cases o with
            | none =>
                simp only [h'] at hok
                exact ih hok h1
            | some v0 =>
                simp only [h'] at hok
                cases h'' : calculate_statistics rest with
                | error e =>
                    rw [h''] at hok
                    exact absurd hok (by simp)
                | ok results =>
                    rw [h''] at hok
                    simp only [Except.ok.injEq] at hok
                    rw [← hok]
                    exact List.mem_cons_of_mem _ (ih h'' h1)

/-- Unfolding of `dateLe` to arithmetic on the date's fields. -/
theorem dateLe_iff (a b : Date) :
    dateLe a b = true ↔
    a.year < b.year ∨ (a.year = b.year ∧
      (a.month < b.month ∨ (a.month = b.month ∧ a.day ≤ b.day))) := by
  simp [dateLe, Bool.or_eq_true, Bool.and_eq_true, decide_eq_true_eq, beq_iff_eq]

/-- The descending-by-date comparison is transitive. -/
theorem newerLe_trans : ∀ (a b c : Obs),
    newerLe a b → newerLe b c → newerLe a c := by
  intro a b c hab hbc
  simp only [newerLe, dateLe_iff] at *
  omega

/-- The descending-by-date comparison is total. -/
theorem newerLe_total : ∀ (a b : Obs), newerLe a b || newerLe b a := by
  intro a b
  simp only [newerLe, Bool.or_eq_true, dateLe_iff]
  omega

/-- Characterization of the `%d` day token. -/
theorem parseDayToken_eq_some (cs : List Char) (n : Nat) :
    parseDayToken cs = some n ↔
    cs.all Char.isDigit = true ∧ (cs.length = 1 ∨ cs.length = 2) ∧
    1 ≤ n ∧ n ≤ 31 ∧ digitsToNat cs = n := by
  unfold parseDayToken
  split_ifs with hc hn
  · simp only [Option.some.injEq]
    rw [Bool.and_eq_true, Bool.or_eq_true] at hc
    obtain ⟨ha, hb⟩ := hc
    constructor
    · intro he
      refine ⟨ha, ?_, he ▸ hn.1, he ▸ hn.2, he⟩
      rcases hb with h | h
      · exact Or.inl (by simpa using h)
      · exact Or.inr (by simpa using h)
    · intro h
      exact h.2.2.2.2
  · constructor
    · intro he
      exact he.elim
    · rintro ⟨_, _, hn1, hn31, he⟩
      exact absurd ⟨he ▸ hn1, he ▸ hn31⟩ hn
  · constructor
    · intro he
      exact he.elim
    · rintro ⟨ha, hb, _, _, _⟩
      apply absurd _ hc
      rw [Bool.and_eq_true, Bool.or_eq_true]
      refine ⟨ha, ?_⟩
      rcases hb with h | h
      · exact Or.inl (by simp [h])
      · exact Or.inr (by simp [h])

/-- Characterization of the `%Y` year token. -/
theorem parseYearToken_eq_some (cs : List Char) (n : Nat) :
    parseYearToken cs = some n ↔
    cs.all Char.isDigit = true ∧ cs.length = 4 ∧ 1 ≤ n ∧ digitsToNat cs = n := by
  unfold parseYearToken
  split_ifs with hc hn
  · simp only [Option.some.injEq]
    rw [Bool.and_eq_true] at hc
    obtain ⟨ha, hb⟩ := hc
    constructor
    · intro he
      exact ⟨ha, by simpa using hb, he ▸ hn, he⟩
    · intro h
      exact h.2.2.2
  · constructor
    · intro he
      exact he.elim
    · rintro ⟨_, _, hn1, he⟩
      exact absurd (he ▸ hn1) hn
  · constructor
    · intro he
      exact he.elim
    · rintro ⟨ha, hb, _, _⟩
      apply absurd _ hc
      rw [Bool.and_eq_true]
      exact ⟨ha, by simp [hb]⟩

/-- A month token resolves iff its lower-casing is one of the locale's
abbreviations. -/
theorem monthFromAbbrev_isSome (cs : List Char) :
    (monthFromAbbrev cs).isSome = true ↔ cs.map Char.toLower ∈ monthAbbrevs := by
  unfold monthFromAbbrev
  cases hfind : monthAbbrevs.findIdx? (· == cs.map Char.toLower) with
  | none =>
      simp only [Option.map_none', Option.isSome_none]
      constructor
      · intro he
        exact absurd he (by simp)
      · intro hmem
        have hs : (monthAbbrevs.findIdx? (· == cs.map Char.toLower)).isSome = true := by
          rw [List.findIdx?_isSome, List.any_eq_true]
          exact ⟨cs.map Char.toLower, hmem, beq_self_eq_true _⟩
        rw [hfind] at hs
        exact absurd hs (by simp)
  | some i =>
      have hsome : (monthAbbrevs.findIdx? (· == cs.map Char.toLower)).isSome = true := by
        rw [hfind]
        rfl
      rw [List.findIdx?_isSome, List.any_eq_true] at hsome
      obtain ⟨x, hx, hbeq⟩ := hsome
      rw [beq_iff_eq] at hbeq
      simp only [Option.map_some', Option.isSome_some, true_iff]
      exact hbeq ▸ hx

/-! ### Claims -/

/-- C1: a record is retained (appended to its instrument's series) iff its
date string parses under the fixed `DD-Mon-YYYY` format and the parsed date is
a weekday; on a parse failure or a weekend date the series map is returned
unchanged, with no error. -/
theorem retained_iff_parses_and_business_day
    (acc : SeriesMap) (name ds : String) (v : ℚ) :
    (∀ d, strptimeDMbY ds = some d → is_business_day d = true →
        process_date acc name ds v = append_obs acc name (d, v)) ∧
    (∀ d, strptimeDMbY ds = some d → is_business_day d = false →
        process_date acc name ds v = acc) ∧
    (strptimeDMbY ds = none → process_date acc name ds v = acc) := by
  refine ⟨?_, ?_, ?_⟩
  · intro d hd hb
    simp [process_date, hd, hb]
  · intro d hd hb
    simp [process_date, hd, hb]
  · intro hn
    simp [process_date, hn]

/-- Witness for C1 at concrete inputs: 05-Nov-2014 (a Wednesday) is retained,
08-Nov-2014 (a Saturday) and a malformed date are skipped leaving the map
unchanged. -/
theorem retained_iff_parses_and_business_day_witness :
    process_date [] "INSTRUMENT1" "05-Nov-2014" (100 : ℚ) =
      append_obs [] "INSTRUMENT1" (⟨2014, 11, 5⟩, (100 : ℚ)) ∧
    process_date [] "INSTRUMENT1" "08-Nov-2014" (100 : ℚ) = [] ∧
    process_date [] "INSTRUMENT1" "2014-11-05" (100 : ℚ) = [] :=
  ⟨(retained_iff_parses_and_business_day [] "INSTRUMENT1" "05-Nov-2014" 100).1
      ⟨2014, 11, 5⟩ (by decide) (by decide),
   (retained_iff_parses_and_business_day [] "INSTRUMENT1" "08-Nov-2014" 100).2.1
      ⟨2014, 11, 8⟩ (by decide) (by decide),
   (retained_iff_parses_and_business_day [] "INSTRUMENT1" "2014-11-05" 100).2.2
      (by decide)⟩

/-- C2: each ingested record's stored value is the raw value multiplied by the
reference store's multiplier for its instrument (the first matching row, or
1.0 when the instrument has no row), applied exactly once per record, before
the date parse / business-day filter performed by `process_date`. -/
theorem adjustment_once_before_filter :
    (∀ (rows : List (List String)) (conn : RefStore) (acc : SeriesMap)
        (n ds vs : String) (v : ℚ), pyFloat vs = some v →
        ingest_rows ([n, ds, vs] :: rows) conn acc =
          ingest_rows rows conn
            (process_date acc n ds (v * get_multiplier conn n))) ∧
    (∀ (conn : RefStore) (n : String), (∀ q, (n, q) ∉ conn) →
        get_multiplier conn n = 1) ∧
    (∀ (acc : SeriesMap) (n ds : String) (v : ℚ) (conn : RefStore) d,
        strptimeDMbY ds = some d → is_business_day d = true →
        process_date acc n ds (v * get_multiplier conn n) =
          append_obs acc n (d, v * get_multiplier conn n)) := by
  refine ⟨?_, ?_, ?_⟩
  · intro rows conn acc n ds vs v hv
    simp [ingest_rows, parse_line, hv]
  · intro conn n h
    have hf : conn.find? (fun e => e.1 == n) = none := by
      rw [List.find?_eq_none]
      rintro ⟨a, b⟩ hmem hbeq
      rw [beq_iff_eq] at hbeq
      subst hbeq
      exact h b hmem
    simp [get_multiplier, hf]
  · intro acc n ds v conn d hd hb
    simp [process_date, hd, hb]

/-- Witness for C2 at concrete inputs: a record of an instrument with
multiplier 1.5 is handed to `process_date` with value 100 × 1.5, an unknown
instrument gets multiplier 1, and the adjusted value is what gets appended. -/
theorem adjustment_once_before_filter_witness :
    ingest_rows [["INSTRUMENT1", "05-Nov-2014", "100"]] [("INSTRUMENT1", 3 / 2)] [] =
      ingest_rows [] [("INSTRUMENT1", 3 / 2)]
        (process_date [] "INSTRUMENT1" "05-Nov-2014"
          (((100 : ℕ) : ℚ) * get_multiplier [("INSTRUMENT1", 3 / 2)] "INSTRUMENT1")) ∧
    get_multiplier [("INSTRUMENT1", 3 / 2)] "XYZ" = 1 ∧
    process_date [] "XYZ" "05-Nov-2014" (100 * get_multiplier [("INSTRUMENT1", 3 / 2)] "XYZ") =
      append_obs [] "XYZ" (⟨2014, 11, 5⟩, 100 * get_multiplier [("INSTRUMENT1", 3 / 2)] "XYZ") :=
  ⟨adjustment_once_before_filter.1 [] [("INSTRUMENT1", 3 / 2)] []
      "INSTRUMENT1" "05-Nov-2014" "100" ((100 : ℕ) : ℚ) rfl,
   adjustment_once_before_filter.2.1 [("INSTRUMENT1", 3 / 2)] "XYZ"
      (by intro q hq; simp at hq),
   adjustment_once_before_filter.2.2 [] "XYZ" "05-Nov-2014" 100
      [("INSTRUMENT1", 3 / 2)] ⟨2014, 11, 5⟩ (by decide) (by decide)⟩

/-- C9: every instrument name that is a key of the mapping returned by
ingestion maps to a non-empty series. -/
theorem ingest_series_nonempty (rows : List (List String)) (conn : RefStore)
    (m : SeriesMap) (h : read_instrument_prices rows conn = .ok m) :
    ∀ n ps, (n, ps) ∈ m → ps ≠ [] :=
  ingest_rows_nonempty (by simp) h

/-- Witness for C9 at a concrete input: the ingested map of a two-row input
has only non-empty series. -/
theorem ingest_series_nonempty_witness :
    [(⟨2014, 11, 5⟩, ((100 : ℕ) : ℚ) * 1)] ≠ ([] : List Obs) :=
  ingest_series_nonempty [["A", "05-Nov-2014", "100"]] []
    [("A", [(⟨2014, 11, 5⟩, ((100 : ℕ) : ℚ) * 1)])] rfl
    "A" _ (List.mem_singleton.mpr rfl)

/-- C7: for the instrument named exactly "INSTRUMENT1" with a non-empty
series, the statistics pass returns the arithmetic mean of all adjusted values
of the series. -/
theorem instrument1_mean (prices : List Obs) (hne : prices ≠ []) :
    calculate_statistics [("INSTRUMENT1", prices)] =
      .ok [("INSTRUMENT1", (prices.map Prod.snd).sum / (prices.length : ℚ))] ∧
    ∀ ip res, calculate_statistics ip = .ok res → ("INSTRUMENT1", prices) ∈ ip →
      ("INSTRUMENT1", (prices.map Prod.snd).sum / (prices.length : ℚ)) ∈ res := by
  have hstat : statistic_for "INSTRUMENT1" prices =
      .ok (some ((prices.map Prod.snd).sum / (prices.length : ℚ))) := by
    have hne' : (prices.map Prod.snd).isEmpty = false := by
      simp [List.isEmpty_iff, hne]
    simp [statistic_for, mean, hne']
  constructor
  · simp [calculate_statistics, hstat]
  · intro ip res hok hmem
    exact calculate_statistics_mem hok hmem hstat

/-- Witness for C7 at a concrete series: mean of 150 and 300 is 225. -/
theorem instrument1_mean_witness :
    calculate_statistics
        [("INSTRUMENT1", [(⟨2014, 11, 5⟩, (150 : ℚ)), (⟨2014, 11, 6⟩, 300)])] =
      .ok [("INSTRUMENT1", (225 : ℚ))] := by
  have h := (instrument1_mean
    [(⟨2014, 11, 5⟩, (150 : ℚ)), (⟨2014, 11, 6⟩, 300)] (by simp)).1
  rw [h]
  norm_num

/-- C3: for the instrument named exactly "INSTRUMENT2", the statistics pass
returns the arithmetic mean of the adjusted values dated in November 2014;
when the series has no such value the computation raises `StatisticsError`,
aborting the whole statistics pass. -/
theorem instrument2_nov2014_mean :
    (∀ prices : List Obs, nov_2014_prices prices ≠ [] →
        calculate_statistics [("INSTRUMENT2", prices)] =
          .ok [("INSTRUMENT2",
            (nov_2014_prices prices).sum / ((nov_2014_prices prices).length : ℚ))]) ∧
    (∀ (ip : SeriesMap) (prices : List Obs), ("INSTRUMENT2", prices) ∈ ip →
        nov_2014_prices prices = [] →
        calculate_statistics ip = .error .statisticsError) := by
  constructor
  · intro prices hne
    have hne' : (nov_2014_prices prices).isEmpty = false := by
      simp [List.isEmpty_iff, hne]
    simp [calculate_statistics, statistic_for, mean, hne']
  · intro ip prices hmem hempty
    have herr : statistic_for "INSTRUMENT2" prices = .error .statisticsError := by
      simp [statistic_for, mean, hempty]
    exact calculate_statistics_error hmem herr

/-- Witness for C3 at concrete series: one November-2014 value yields its
mean; a series with only an October-2014 value raises. -/
theorem instrument2_nov2014_mean_witness :
    calculate_statistics [("INSTRUMENT2", [(⟨2014, 11, 5⟩, (10 : ℚ))])] =
      .ok [("INSTRUMENT2", (10 : ℚ))] ∧
    calculate_statistics [("INSTRUMENT2", [(⟨2014, 10, 1⟩, (10 : ℚ))])] =
      .error .statisticsError := by
  constructor
  · have h := instrument2_nov2014_mean.1 [(⟨2014, 11, 5⟩, (10 : ℚ))]
      (by simp [nov_2014_prices])
    rw [h]
    norm_num [nov_2014_prices]
  · exact instrument2_nov2014_mean.2 [("INSTRUMENT2", [(⟨2014, 10, 1⟩, (10 : ℚ))])]
      [(⟨2014, 10, 1⟩, (10 : ℚ))] (List.mem_singleton.mpr rfl)
      (by simp [nov_2014_prices])

/-- C6: for the instrument named exactly "INSTRUMENT3", the result mapping
has an entry iff the series has more than one observation, in which case the
entry is the median of all adjusted values; a series of length ≤ 1 produces
no entry at all. -/
theorem instrument3_median_iff (prices : List Obs) :
    calculate_statistics [("INSTRUMENT3", prices)] =
      .ok (if 1 < prices.length
           then [("INSTRUMENT3", median (prices.map Prod.snd))]
           else []) := by
  by_cases h : 1 < prices.length
  · simp [calculate_statistics, statistic_for, h]
  · simp [calculate_statistics, statistic_for, h]

/-- C8: an input containing a row that does not decompose into exactly three
fields, or whose value field is not parseable as a number, makes ingestion
raise a `ValueError` that aborts the whole run. -/
theorem malformed_row_aborts (rows : List (List String)) (conn : RefStore)
    (row : List String) (hmem : row ∈ rows)
    (hbad : row.length ≠ 3 ∨ ∃ n ds vs, row = [n, ds, vs] ∧ pyFloat vs = none) :
    read_instrument_prices rows conn = .error .valueError := by
  have herr : parse_line row = .error .valueError := by
    rcases hbad with h | ⟨n, ds, vs, heq, hpf⟩
    · rcases row with _ | ⟨a, _ | ⟨b, _ | ⟨c, _ | ⟨d, tl⟩⟩⟩⟩
      · rfl
      · rfl
      · rfl
      · exact absurd (by simp : [a, b, c].length = 3) h
      · rfl
    · subst heq
      simp [parse_line, hpf]
  exact ingest_rows_error hmem herr

/-- Witness for C8 at concrete inputs: a two-field row aborts the run, and so
does a row with a non-numeric value field. -/
theorem malformed_row_aborts_witness :
    read_instrument_prices [["a", "b"]] [] = .error .valueError ∧
    read_instrument_prices [["a", "05-Nov-2014", "x1"]] [] = .error .valueError :=
  ⟨malformed_row_aborts [["a", "b"]] [] ["a", "b"]
      (List.mem_singleton.mpr rfl) (Or.inl (by simp)),
   malformed_row_aborts [["a", "05-Nov-2014", "x1"]] [] ["a", "05-Nov-2014", "x1"]
      (List.mem_singleton.mpr rfl)
      (Or.inr ⟨"a", "05-Nov-2014", "x1", rfl, rfl⟩)⟩

/-- C4: for an instrument with none of the three special names, the
statistics pass returns the sum of the values of the 10 most-recent
observations: the series sorted by date descending — a stable sort, keeping
equal-date observations in input order — truncated to `min 10 length`; for a
series of length ≤ 10 this is the sum of all its values. -/
theorem default_rule_newest_sum (name : String) (prices : List Obs)
    (h1 : name ≠ "INSTRUMENT1") (h2 : name ≠ "INSTRUMENT2")
    (h3 : name ≠ "INSTRUMENT3") :
    calculate_statistics [(name, prices)] =
      .ok [(name, ((newest_prices prices).map Prod.snd).sum)] ∧
    (prices.mergeSort newerLe).Perm prices ∧
    (prices.mergeSort newerLe).Pairwise (fun a b => newerLe a b = true) ∧
    (∀ d : Date, (prices.mergeSort newerLe).filter (fun p => p.1 == d) =
        prices.filter (fun p => p.1 == d)) ∧
    (prices.length ≤ 10 →
        ((newest_prices prices).map Prod.snd).sum = (prices.map Prod.snd).sum) := by
  refine ⟨?_, ?_, ?_, ?_, ?_⟩
  · simp [calculate_statistics, statistic_for, h1, h2, h3]
  · exact List.mergeSort_perm prices newerLe
  · exact List.sorted_mergeSort newerLe_trans newerLe_total prices
  · intro d
    have hsub : List.Sublist (prices.filter (fun p => p.1 == d)) prices :=
      List.filter_sublist prices
    have hpw : (prices.filter (fun p => p.1 == d)).Pairwise
        (fun a b => newerLe a b) := by
      apply List.pairwise_of_forall_mem_list
      intro a ha b hb
      have hda := (List.mem_filter.mp ha).2
      have hdb := (List.mem_filter.mp hb).2
      rw [beq_iff_eq] at hda hdb
      simp [newerLe, dateLe_iff, hda, hdb]
    have hstab := List.sublist_mergeSort newerLe_trans newerLe_total hpw hsub
    have hfil : List.Sublist (prices.filter (fun p => p.1 == d))
        ((prices.mergeSort newerLe).filter (fun p => p.1 == d)) := by
      have hf := hstab.filter (fun p => p.1 == d)
      rwa [List.filter_eq_self.mpr (fun a ha => (List.mem_filter.mp ha).2)] at hf
    have hperm : ((prices.mergeSort newerLe).filter (fun p => p.1 == d)).Perm
        (prices.filter (fun p => p.1 == d)) :=
      (List.mergeSort_perm prices newerLe).filter _
    exact (hfil.eq_of_length hperm.length_eq.symm).symm
  · intro hlen
    have htake : (prices.mergeSort newerLe).take (min 10 prices.length) =
        prices.mergeSort newerLe := by
      rw [Nat.min_eq_right hlen]
      exact List.take_of_length_le (le_of_eq (List.length_mergeSort prices))
    rw [newest_prices, htake]
    exact ((List.mergeSort_perm prices newerLe).map Prod.snd).sum_eq

/-- Witness for C4 at a concrete series of two business days: sum = 5 + 7. -/
theorem default_rule_newest_sum_witness :
    calculate_statistics [("XYZ", [(⟨2015, 1, 1⟩, (5 : ℚ)), (⟨2015, 1, 2⟩, 7)])] =
      .ok [("XYZ", (12 : ℚ))] := by
  have h := (default_rule_newest_sum "XYZ"
    [(⟨2015, 1, 1⟩, (5 : ℚ)), (⟨2015, 1, 2⟩, 7)]
    (by decide) (by decide) (by decide)).1
  rw [h]
  norm_num [newest_prices, List.mergeSort, List.merge, newerLe, dateLe]

/-- C5 counterexample: the string "5-NOV-2014" — one-digit day, upper-case
month token — is accepted by the parser although the claimed format
(two-digit day, case-sensitive month) rejects it, refuting the claimed
iff. -/
theorem strptime_claimed_format_cex :
    (strptimeDMbY "5-NOV-2014").isSome = true ∧
    claimed_format "5-NOV-2014" = false := by
  constructor
  · decide
  · decide

/-- C5 (amended): the parser accepts a date string iff it splits on hyphens
into exactly three tokens where the day is one or two digits with value 1–31,
the month token lower-cases to one of the locale's three-letter abbreviations
(i.e. it is matched case-insensitively), the year is exactly four digits with
value ≥ 1, and the day does not exceed the length of that month in that
year. -/
theorem strptime_accepts_iff (s : String) :
    (strptimeDMbY s).isSome = true ↔
    ∃ ds ms ys, splitOnChar '-' s.toList = [ds, ms, ys] ∧
      ds.all Char.isDigit = true ∧ (ds.length = 1 ∨ ds.length = 2) ∧
      1 ≤ digitsToNat ds ∧ digitsToNat ds ≤ 31 ∧
      ms.map Char.toLower ∈ monthAbbrevs ∧
      ys.all Char.isDigit = true ∧ ys.length = 4 ∧ 1 ≤ digitsToNat ys ∧
      ∃ m, monthFromAbbrev ms = some m ∧
        digitsToNat ds ≤ daysInMonth (digitsToNat ys) m := by
  constructor
  · intro h
    unfold strptimeDMbY at h
    rcases hsplit : splitOnChar '-' s.toList with _ | ⟨ds, _ | ⟨ms, _ | ⟨ys, _ | ⟨z, tl⟩⟩⟩⟩
    · rw [hsplit] at h
      simp at h
    · rw [hsplit] at h
      simp at h
    · rw [hsplit] at h
      simp at h
    · rw [hsplit] at h
      replace h : (match parseDayToken ds, monthFromAbbrev ms, parseYearToken ys with
        | some d, some m, some y =>
            if d ≤ daysInMonth y m then some (⟨y, m, d⟩ : Date) else none
        | _, _, _ => none).isSome = true := h
      cases hd : parseDayToken ds with
      | none =>
          rw [hd] at h
          simp at h
      | some dn =>
        cases hm : monthFromAbbrev ms with
        | none =>
            rw [hd, hm] at h
            simp at h
        | some m =>
          cases hy : parseYearToken ys with
          | none =>
              rw [hd, hm, hy] at h
              simp at h
          | some yn =>
              rw [hd, hm, hy] at h
              have h' : (if dn ≤ daysInMonth yn m then
                  some (⟨yn, m, dn⟩ : Date) else none).isSome = true := h
              by_cases hbound : dn ≤ daysInMonth yn m
              · obtain ⟨ha, hlen2, hd1, hd31, hdn⟩ :=
                  (parseDayToken_eq_some ds dn).mp hd
                obtain ⟨hya, hyl, hy1, hydn⟩ :=
                  (parseYearToken_eq_some ys yn).mp hy
                have hmem : ms.map Char.toLower ∈ monthAbbrevs :=
                  (monthFromAbbrev_isSome ms).mp (by rw [hm]; rfl)
                refine ⟨ds, ms, ys, rfl, ha, hlen2, ?_, ?_, hmem,
                  hya, hyl, ?_, m, hm, ?_⟩
                · omega
                · omega
                · omega
                · rw [hdn, hydn]
                  exact hbound
              · rw [if_neg hbound] at h'
                simp at h'
    · rw [hsplit] at h
      simp at h
  · rintro ⟨ds, ms, ys, hsplit, ha, hlen, h1, h31, hmem, hya, hyl, hy1, m, hm, hb⟩
    unfold strptimeDMbY
    rw [hsplit]
    show (match parseDayToken ds, monthFromAbbrev ms, parseYearToken ys with
      | some d, some m, some y =>
          if d ≤ daysInMonth y m then some (⟨y, m, d⟩ : Date) else none
      | _, _, _ => none).isSome = true
    rw [(parseDayToken_eq_some ds (digitsToNat ds)).mpr ⟨ha, hlen, h1, h31, rfl⟩,
      hm, (parseYearToken_eq_some ys (digitsToNat ys)).mpr ⟨hya, hyl, hy1, rfl⟩]
    simp [hb]

/-- C10: the pipeline is deterministic — ingesting the same rows with the same
reference data twice yields identical series maps, and identical statistics. -/
theorem pipeline_deterministic (rows₁ rows₂ : List (List String))
    (conn₁ conn₂ : RefStore) (h₁ : rows₁ = rows₂) (h₂ : conn₁ = conn₂) :
    read_instrument_prices rows₁ conn₁ = read_instrument_prices rows₂ conn₂ ∧
    ∀ m₁ m₂, read_instrument_prices rows₁ conn₁ = .ok m₁ →
      read_instrument_prices rows₂ conn₂ = .ok m₂ →
      m₁ = m₂ ∧ calculate_statistics m₁ = calculate_statistics m₂ := by
  subst h₁; subst h₂
  refine ⟨rfl, ?_⟩
  intro m₁ m₂ hm₁ hm₂
  rw [hm₁] at hm₂
  have : m₁ = m₂ := (Except.ok.injEq ..).mp hm₂
  exact ⟨this, by rw [this]⟩

/-- Witness for C10 at a concrete input. -/
theorem pipeline_deterministic_witness :
    read_instrument_prices [["A", "05-Nov-2014", "100"]] [] =
      read_instrument_prices [["A", "05-Nov-2014", "100"]] [] :=
  (pipeline_deterministic [["A", "05-Nov-2014", "100"]]
    [["A", "05-Nov-2014", "100"]] [] [] rfl rfl).1

end Calc
